import Mathlib

/-!
Verification of the gitkit specification against its code.

Go strings are byte sequences, so strings are embedded as `List Nat`
with every element below 256.  HTTP headers are embedded as an
association list from (canonical MIME) key bytes to value bytes; the
only key the code touches is the literal "Authorization", which is
already in canonical form, so exact key comparison is faithful.

The credential extractor `getCredential` (credential.go) delegates to
Go 1.17's `Request.BasicAuth`, whose helper `parseBasicAuth` does a
byte-wise ASCII case-insensitive match of the 6-byte scheme "Basic ",
a standard (padded) base64 decode of the remainder, and a split at the
first colon.  All of that is embedded below, including the standard
library's base64 alphabet, padding rules and the documented skipping
of CR and LF bytes during decoding.
-/

/-- The bytes of "Basic " (the HTTP basic-auth scheme with trailing space). -/
def basicScheme : List Nat := [66, 97, 115, 105, 99, 32]

/-- The bytes of "Bearer " (the HTTP bearer scheme with trailing space). -/
def bearerScheme : List Nat := [66, 101, 97, 114, 101, 114, 32]

/-- The bytes of the canonical header key "Authorization". -/
def authKey : List Nat := [65, 117, 116, 104, 111, 114, 105, 122, 97, 116, 105, 111, 110]

/-- ASCII lower-casing of one byte, as in Go 1.17 internal/ascii. -/
def asciiLower (b : Nat) : Nat := if 65 ≤ b ∧ b ≤ 90 then b + 32 else b

/-- Byte-wise ASCII case-insensitive equality, as in Go 1.17
internal/ascii.EqualFold (used by net/http parseBasicAuth). -/
def asciiEqualFold : List Nat → List Nat → Bool
  | [], [] => true
  | a :: s, b :: t => asciiLower a == asciiLower b && asciiEqualFold s t
  | _, _ => false

/-- The standard base64 alphabet: sextet value to ASCII byte. -/
def b64Char (s : Nat) : Nat :=
  if s < 26 then 65 + s
  else if s < 52 then 97 + (s - 26)
  else if s < 62 then 48 + (s - 52)
  else if s = 62 then 43
  else 47

/-- Inverse of the standard base64 alphabet: ASCII byte to sextet value,
`none` for bytes outside the alphabet (the 0xff entries of Go's decodeMap). -/
def b64Index (c : Nat) : Option Nat :=
  if 65 ≤ c ∧ c ≤ 90 then some (c - 65)
  else if 97 ≤ c ∧ c ≤ 122 then some (26 + (c - 97))
  else if 48 ≤ c ∧ c ≤ 57 then some (52 + (c - 48))
  else if c = 43 then some 62
  else if c = 47 then some 63
  else none

/-- Standard (padded) base64 encoding of a byte sequence, as in Go
encoding/base64 StdEncoding.EncodeToString. -/
def base64Encode : List Nat → List Nat
  | [] => []
  | [b1] => [b64Char (b1 / 4), b64Char (b1 % 4 * 16), 61, 61]
  | [b1, b2] => [b64Char (b1 / 4), b64Char (b1 % 4 * 16 + b2 / 16), b64Char (b2 % 16 * 4), 61]
  | b1 :: b2 :: b3 :: rest =>
      b64Char (b1 / 4) :: b64Char (b1 % 4 * 16 + b2 / 16) ::
        b64Char (b2 % 16 * 4 + b3 / 64) :: b64Char (b3 % 64) :: base64Encode rest

/-- Core of standard base64 decoding: four characters at a time, padding
only in the final quantum, no check of unused trailing bits (Go's
StdEncoding is not strict). -/
def base64DecodeCore : List Nat → Option (List Nat)
  | [] => some []
  | c1 :: c2 :: c3 :: c4 :: rest =>
    match b64Index c1, b64Index c2 with
    | some s1, some s2 =>
      if c3 = 61 then
        if c4 = 61 ∧ rest = [] then some [s1 * 4 + s2 / 16] else none
      else
        match b64Index c3 with
        | some s3 =>
          if c4 = 61 then
            if rest = [] then some [s1 * 4 + s2 / 16, s2 % 16 * 16 + s3 / 4] else none
          else
            match b64Index c4 with
            | some s4 =>
              match base64DecodeCore rest with
              | some ds =>
                some ((s1 * 4 + s2 / 16) :: (s2 % 16 * 16 + s3 / 4) ::
                  (s3 % 4 * 64 + s4) :: ds)
              | none => none
            | none => none
        | none => none
    | _, _ => none
  | _ => none

/-- True of bytes other than LF (10) and CR (13). -/
def notCRLF (c : Nat) : Bool := !(c == 10) && !(c == 13)

/-- Standard base64 decoding, as in Go encoding/base64
StdEncoding.DecodeString: CR and LF bytes are ignored, everything else
is decoded four characters at a time. -/
def base64Decode (s : List Nat) : Option (List Nat) :=
  base64DecodeCore (s.filter notCRLF)

/-- First index of byte `b` in `l`, as in Go strings.IndexByte
(with `none` for Go's -1). -/
def indexByte (l : List Nat) (b : Nat) : Option Nat :=
  match l with
  | [] => none
  | c :: rest => if c = b then some 0 else (indexByte rest b).map (· + 1)

/-- Go 1.17 net/http parseBasicAuth: case-insensitive "Basic " scheme,
base64 payload, split at first colon; every failure path returns two
empty strings and false. -/
def parseBasicAuth (auth : List Nat) : List Nat × List Nat × Bool :=
  if auth.length < 6 then ([], [], false)
  else if asciiEqualFold (auth.take 6) basicScheme = false then ([], [], false)
  else
    match base64Decode (auth.drop 6) with
    | none => ([], [], false)
    | some cs =>
      match indexByte cs 58 with
      | none => ([], [], false)
      | some s => (cs.take s, cs.drop (s + 1), true)

/-- HTTP header: association list from canonical key bytes to the first
value's bytes (Go's Header map holds one entry per canonical key; Get
reads the first value). -/
abbrev Header : Type := List (List Nat × List Nat)

/-- Go Header.Get for a canonical key: first matching value, empty when
the key is absent. -/
def headerGet : Header → List Nat → List Nat
  | [], _ => []
  | (k, v) :: rest, key => if k = key then v else headerGet rest key

/-- Go Header.Set for a canonical key: replace the existing entry or
append a new one. -/
def headerSet : Header → List Nat → List Nat → Header
  | [], key, v => [(key, v)]
  | (k, w) :: rest, key, v =>
      if k = key then (key, v) :: rest else (k, w) :: headerSet rest key v

/-- The parts of an http.Request the credential code can see: method and
URL bytes (untouched by it) and the header map. -/
structure Request where
  method : List Nat
  url : List Nat
  header : Header

/-- Go 1.17 Request.BasicAuth: empty header value short-circuits, else
parseBasicAuth on the raw header value. -/
def requestBasicAuth (r : Request) : List Nat × List Nat × Bool :=
  let auth := headerGet r.header authKey
  if auth = [] then ([], [], false) else parseBasicAuth auth

/-- The output type of the credential extractor (credential.go). -/
structure Credential where
  Username : List Nat
  Password : List Nat
  Authorization : List Nat
deriving DecidableEq

/-- getCredential from credential.go: Username and Password from
Request.BasicAuth (its ok flag discarded), Authorization the raw header
value verbatim. -/
def getCredential (r : Request) : Credential :=
  let up := requestBasicAuth r
  { Username := up.1, Password := up.2.1,
    Authorization := headerGet r.header authKey }

/-- Go Request.SetBasicAuth: sets the Authorization header to
"Basic " followed by the base64 encoding of user, a colon and pass. -/
def setBasicAuth (r : Request) (user pass : List Nat) : Request :=
  { r with header :=
      headerSet r.header authKey (basicScheme ++ base64Encode (user ++ 58 :: pass)) }

theorem b64Index_b64Char : ∀ s < 64, b64Index (b64Char s) = some s := by decide

theorem b64Char_ne : ∀ s < 64, b64Char s ≠ 10 ∧ b64Char s ≠ 13 ∧ b64Char s ≠ 61 := by decide

theorem notCRLF_b64Char : ∀ s < 64, notCRLF (b64Char s) = true := by decide

theorem notCRLF_pad : notCRLF 61 = true := by decide

theorem sextet1_lt {b1 : Nat} (h : b1 < 256) : b1 / 4 < 64 := by omega

theorem sextet2_lt {b1 b2 : Nat} (h1 : b1 < 256) (h2 : b2 < 256) :
    b1 % 4 * 16 + b2 / 16 < 64 := by omega

theorem sextet3_lt {b2 b3 : Nat} (h2 : b2 < 256) (h3 : b3 < 256) :
    b2 % 16 * 4 + b3 / 64 < 64 := by omega

theorem sextet4_lt {b3 : Nat} (h3 : b3 < 256) : b3 % 64 < 64 := by omega

theorem base64Encode_filter : ∀ bs : List Nat, (∀ b ∈ bs, b < 256) →
    (base64Encode bs).filter notCRLF = base64Encode bs := by
  intro bs
  induction bs using base64Encode.induct with
  | case1 => intro _; rfl
  | case2 b1 =>
    intro h
    have h1 : b1 < 256 := h b1 (by simp)
    simp [base64Encode, List.filter, notCRLF_pad,
      notCRLF_b64Char _ (sextet1_lt h1),
      notCRLF_b64Char _ (by omega : b1 % 4 * 16 < 64)]
  | case3 b1 b2 =>
    intro h
    have h1 : b1 < 256 := h b1 (by simp)
    have h2 : b2 < 256 := h b2 (by simp)
    simp [base64Encode, List.filter, notCRLF_pad,
      notCRLF_b64Char _ (sextet1_lt h1),
      notCRLF_b64Char _ (sextet2_lt h1 h2),
      notCRLF_b64Char _ (by omega : b2 % 16 * 4 < 64)]
  | case4 b1 b2 b3 rest ih =>
    intro h
    have h1 : b1 < 256 := h b1 (by simp)
    have h2 : b2 < 256 := h b2 (by simp)
    have h3 : b3 < 256 := h b3 (by simp)
    have hrest : ∀ b ∈ rest, b < 256 := fun b hb => h b (by simp [hb])
    simp [base64Encode, List.filter,
      notCRLF_b64Char _ (sextet1_lt h1),
      notCRLF_b64Char _ (sextet2_lt h1 h2),
      notCRLF_b64Char _ (sextet3_lt h2 h3),
      notCRLF_b64Char _ (sextet4_lt h3), ih hrest]

theorem base64DecodeCore_encode : ∀ bs : List Nat, (∀ b ∈ bs, b < 256) →
    base64DecodeCore (base64Encode bs) = some bs := by
  intro bs
  induction bs using base64Encode.induct with
  | case1 => intro _; rfl
  | case2 b1 =>
    intro h
    have h1 : b1 < 256 := h b1 (by simp)
    have e1 := b64Index_b64Char _ (sextet1_lt h1)
    have e2 := b64Index_b64Char _ (by omega : b1 % 4 * 16 < 64)
    simp only [base64Encode, base64DecodeCore, e1, e2, if_pos rfl, and_self, if_true]
    simp only [Option.some.injEq, List.cons.injEq, and_true]
    omega
  | case3 b1 b2 =>
    intro h
    have h1 : b1 < 256 := h b1 (by simp)
    have h2 : b2 < 256 := h b2 (by simp)
    have e1 := b64Index_b64Char _ (sextet1_lt h1)
    have e2 := b64Index_b64Char _ (sextet2_lt h1 h2)
    have e3 := b64Index_b64Char _ (by omega : b2 % 16 * 4 < 64)
    have n3 : b64Char (b2 % 16 * 4) ≠ 61 := (b64Char_ne _ (by omega)).2.2
    simp only [base64Encode, base64DecodeCore, e1, e2, e3, if_neg n3, if_pos rfl, if_true]
    simp only [Option.some.injEq, List.cons.injEq, and_true]
    constructor <;> omega
  | case4 b1 b2 b3 rest ih =>
    intro h
    have h1 : b1 < 256 := h b1 (by simp)
    have h2 : b2 < 256 := h b2 (by simp)
    have h3 : b3 < 256 := h b3 (by simp)
    have hrest : ∀ b ∈ rest, b < 256 := fun b hb => h b (by simp [hb])
    have e1 := b64Index_b64Char _ (sextet1_lt h1)
    have e2 := b64Index_b64Char _ (sextet2_lt h1 h2)
    have e3 := b64Index_b64Char _ (sextet3_lt h2 h3)
    have e4 := b64Index_b64Char _ (sextet4_lt h3)
    have n3 : b64Char (b2 % 16 * 4 + b3 / 64) ≠ 61 := (b64Char_ne _ (sextet3_lt h2 h3)).2.2
    have n4 : b64Char (b3 % 64) ≠ 61 := (b64Char_ne _ (sextet4_lt h3)).2.2
    simp only [base64Encode, base64DecodeCore, e1, e2, e3, e4, if_neg n3, if_neg n4,
      ih hrest]
    simp only [Option.some.injEq, List.cons.injEq, and_true]
    refine ⟨by omega, by omega, by omega⟩

theorem base64Decode_encode (bs : List Nat) (h : ∀ b ∈ bs, b < 256) :
    base64Decode (base64Encode bs) = some bs := by
  unfold base64Decode
  rw [base64Encode_filter bs h]
  exact base64DecodeCore_encode bs h

/-- A request with no headers at all. -/
def reqEmpty : Request := { method := [103, 101, 116], url := [], header := [] }

/-- A request carrying only an unrelated header. -/
def reqOther : Request := { method := [], url := [], header := [([88], [89])] }

/-- A request whose Authorization header is "Bearer V". -/
def reqBearer : Request :=
  { method := [], url := [], header := [(authKey, bearerScheme ++ [86])] }

/-- A request whose Authorization header is "Basic QTpC"
(the payload decodes to the bytes of "A:B"). -/
def reqBasic : Request :=
  { method := [], url := [], header := [(authKey, basicScheme ++ [81, 84, 112, 67])] }

/-- A second request with the same header map as reqBasic but a
different method and URL. -/
def reqBasic2 : Request :=
  { method := [112, 117, 116], url := [47], header := [(authKey, basicScheme ++ [81, 84, 112, 67])] }

/-- Modelled from the spec: the two accepted channel-exec operations.
The file ssh.go that implements the SSH session handler is not part of
the visible sources; sections 3 and 4.3 of the spec define its command
grammar and path checks, embedded here. -/
inductive GitOp
  | uploadPack
  | receivePack
deriving DecidableEq

/-- The bytes of "git-upload-pack". -/
def uploadPackName : List Nat :=
  [103, 105, 116, 45, 117, 112, 108, 111, 97, 100, 45, 112, 97, 99, 107]

/-- The bytes of "git-receive-pack". -/
def receivePackName : List Nat :=
  [103, 105, 116, 45, 114, 101, 99, 101, 105, 118, 101, 45, 112, 97, 99, 107]

/-- A space followed by the path wrapped in single quotes (byte 39),
the argument shape the git client emits. -/
def quotedArg (path : List Nat) : List Nat := 32 :: 39 :: path ++ [39]

/-- Drops an expected byte sequence from the front of a list, `none`
when the list does not start with it. -/
def dropExact : List Nat → List Nat → Option (List Nat)
  | [], l => some l
  | p :: ps, c :: cs => if c = p then dropExact ps cs else none
  | _ :: _, [] => none

/-- Reads a single-quote-terminated argument: accepts exactly the lists
of the form path ++ [39] where the path itself has no quote byte. -/
def readQuoted : List Nat → Option (List Nat)
  | [] => none
  | c :: rest =>
    if c = 39 then
      if rest = [] then some [] else none
    else
      (readQuoted rest).map (fun p => c :: p)

/-- Modelled from the spec: the channel-exec command grammar of section
4.3 — exactly git-upload-pack or git-receive-pack followed by one
single-quoted path; anything else fails to parse. -/
def parseCommand (cmd : List Nat) : Option (GitOp × List Nat) :=
  match dropExact (uploadPackName ++ [32, 39]) cmd with
  | some rest =>
    match readQuoted rest with
    | some path => some (GitOp.uploadPack, path)
    | none => none
  | none =>
    match dropExact (receivePackName ++ [32, 39]) cmd with
    | some rest =>
      match readQuoted rest with
      | some path => some (GitOp.receivePack, path)
      | none => none
    | none => none

/-- Splits a byte path into slash-separated segments (47 is the slash). -/
def splitPath : List Nat → List (List Nat)
  | [] => [[]]
  | c :: rest =>
    if c = 47 then [] :: splitPath rest
    else
      match splitPath rest with
      | s :: ss => (c :: s) :: ss
      | [] => [[c]]

/-- Modelled from the spec: lexical path normalization over segments.
Empty segments and "." are dropped, ".." pops the previous segment and
is an escape (rejected) when there is nothing left to pop. -/
def normalizeSegs : List (List Nat) → List (List Nat) → Option (List (List Nat))
  | acc, [] => some acc.reverse
  | acc, s :: rest =>
    if s = [] ∨ s = [46] then normalizeSegs acc rest
    else if s = [46, 46] then
      match acc with
      | [] => none
      | _ :: acc2 => normalizeSegs acc2 rest
    else normalizeSegs (s :: acc) rest

/-- Modelled from the spec: repository path resolution of section 4.3 —
the requested path is resolved relative to Config.Dir (given here as
its segment list); absolute paths and paths whose normalization would
climb above Dir are rejected with `none`. -/
def resolveRepoPath (dir : List (List Nat)) (p : List Nat) : Option (List (List Nat)) :=
  if p.head? = some 47 then none
  else
    match normalizeSegs [] (splitPath p) with
    | none => none
    | some segs => some (dir ++ segs)

/-- Modelled from the spec: the observable outcome of one channel-exec
request — either a git subprocess is spawned on a resolved repository
location, or the request is rejected with an error message on the
channel and the channel closed. Spawning happens only through the
spawned constructor. -/
inductive ChannelOutcome
  | spawned (op : GitOp) (resolved : List (List Nat))
  | rejected (msg : List Nat)
deriving DecidableEq

/-- Error message bytes for an unrecognized command. -/
def errBadCommand : List Nat := [98, 97, 100, 32, 99, 111, 109, 109, 97, 110, 100]

/-- Error message bytes for a path outside the repository root. -/
def errBadPath : List Nat := [98, 97, 100, 32, 112, 97, 116, 104]

/-- Modelled from the spec: the session handler's treatment of one
channel-exec request (section 4.3) — parse the command, resolve the
path, and only then hand over to the process bridge. -/
def handleExec (dir : List (List Nat)) (cmd : List Nat) : ChannelOutcome :=
  match parseCommand cmd with
  | none => ChannelOutcome.rejected errBadCommand
  | some (op, path) =>
    match resolveRepoPath dir path with
    | none => ChannelOutcome.rejected errBadPath
    | some resolved => ChannelOutcome.spawned op resolved

/-- A one-segment repository root used as concrete test data. -/
def dir0 : List (List Nat) := [[114]]

/-- The bytes of: git-upload-pack then a quoted path of "..". -/
def escCmd : List Nat := uploadPackName ++ quotedArg [46, 46]

/-- The bytes of: git-upload-pack then a quoted path of "a". -/
def goodCmd : List Nat := uploadPackName ++ quotedArg [97]

/-- The single byte "x": not a recognized command. -/
def evilCmd : List Nat := [120]

/-- Modelled from the spec: what the process bridge reports for one
operation (sections 4.4 and 7) — whether the operation succeeded and
whether the subprocess was terminated and reaped (no orphan). Time is
in nanoseconds; the subprocess needs procNs of work, the bridge aborts
it as soon as a configured timeout is exceeded. -/
structure BridgeResult where
  succeeded : Bool
  subprocessReaped : Bool
deriving DecidableEq

/-- Modelled from the spec: the bridge run under an optional timeout
(section 4.6 of the spec text, Timeout as a hard ceiling). With no
timeout the subprocess runs to completion; with a timeout it completes
only when its work fits inside the ceiling, and is otherwise terminated
with a failure reported. In both abort and completion the subprocess is
reaped. -/
def runBridge (timeoutNs : Option Nat) (procNs : Nat) : BridgeResult :=
  match timeoutNs with
  | none => { succeeded := true, subprocessReaped := true }
  | some t =>
    if t < procNs then { succeeded := false, subprocessReaped := true }
    else { succeeded := true, subprocessReaped := true }

/-- Modelled from the spec: the server state the listener lifecycle
acts on (sections 4.1 and 5) — whether the listener has been closed
and how many sessions are in flight. -/
structure ServerState where
  listenerClosed : Bool
  activeSessions : Nat
deriving DecidableEq

/-- Modelled from the spec: the two externally visible events the
listener reacts to — an incoming connection and a Stop call, in any
interleaving. -/
inductive SrvEvent
  | accept
  | stop
deriving DecidableEq

/-- Modelled from the spec: Stop closes the listener and signals every
in-flight session to terminate. -/
def stopServer (s : ServerState) : ServerState :=
  { listenerClosed := true, activeSessions := 0 }

/-- Modelled from the spec: one step of the listener loop. A connection
arriving after the listener closed is not accepted; Stop may arrive at
any time, also repeatedly. -/
def stepServer (s : ServerState) : SrvEvent → ServerState
  | SrvEvent.accept =>
      if s.listenerClosed then s
      else { s with activeSessions := s.activeSessions + 1 }
  | SrvEvent.stop => stopServer s

/-- Modelled from the spec: the listener processing a whole event
interleaving. -/
def runServer (s : ServerState) (evs : List SrvEvent) : ServerState :=
  evs.foldl stepServer s

/-- The freshly constructed server: listener open, no sessions. -/
def initServer : ServerState := { listenerClosed := false, activeSessions := 0 }

example : base64Encode [58, 58] = [79, 106, 111, 61] := by decide
example : base64Decode [79, 106, 111, 61] = some [58, 58] := by decide
example : (getCredential (setBasicAuth ⟨[], [], []⟩ [58] [])).Username = [] := by decide
example : (getCredential (setBasicAuth ⟨[], [], []⟩ [65] [66])).Username = [65] := by decide

theorem headerGet_headerSet (h : Header) (k v : List Nat) :
    headerGet (headerSet h k v) k = v := by
  induction h with
  | nil => simp [headerSet, headerGet]
  | cons p rest ih =>
    obtain ⟨pk, pv⟩ := p
    by_cases hk : pk = k
    · simp [headerSet, headerGet, hk]
    · simp [headerSet, headerGet, hk, ih]

theorem headerGet_absent (h : Header) (k : List Nat)
    (ha : ∀ p ∈ h, p.1 ≠ k) : headerGet h k = [] := by
  induction h with
  | nil => rfl
  | cons p rest ih =>
    obtain ⟨pk, pv⟩ := p
    have hne : pk ≠ k := ha (pk, pv) (by simp)
    simp only [headerGet, if_neg hne]
    exact ih fun q hq => ha q (by simp [hq])

theorem indexByte_append (u : List Nat) (b : Nat) (v : List Nat) (hb : b ∉ u) :
    indexByte (u ++ b :: v) b = some u.length := by
  induction u with
  | nil => simp [indexByte]
  | cons c rest ih =>
    have hc : c ≠ b := by
      intro hcb
      exact hb (by simp [hcb])
    have hrest : b ∉ rest := fun hr => hb (by simp [hr])
    simp [indexByte, hc, ih hrest]

theorem indexByte_decomp : ∀ (l : List Nat) (b i : Nat), indexByte l b = some i →
    l.take i ++ b :: l.drop (i + 1) = l ∧ b ∉ l.take i := by
  intro l
  induction l with
  | nil => intro b i h; simp [indexByte] at h
  | cons c rest ih =>
    intro b i h
    by_cases hc : c = b
    · simp [indexByte, hc] at h
      subst h
      simp [hc]
    · simp only [indexByte, if_neg hc, Option.map_eq_some'] at h
      obtain ⟨j, hj, hi⟩ := h
      obtain ⟨hdec, hmem⟩ := ih b j hj
      subst hi
      constructor
      · simpa [List.take, List.drop] using hdec
      · intro hmem2
        rcases (by simpa [List.take] using hmem2 : b = c ∨ b ∈ rest.take j) with h1 | h1
        · exact hc h1.symm
        · exact hmem h1

theorem parseBasicAuth_not_ok (a : List Nat) :
    (parseBasicAuth a).2.2 = false → parseBasicAuth a = ([], [], false) := by
  unfold parseBasicAuth
  split_ifs with h1 h2
  · intro _; rfl
  · intro _; rfl
  · cases hbd : base64Decode (a.drop 6) with
    | none => intro _; rfl
    | some cs =>
      cases hidx : indexByte cs 58 with
      | none => intro _; simp [hidx]
      | some s => intro hfalse; simp [hidx] at hfalse

theorem parseBasicAuth_ok (a : List Nat) :
    (parseBasicAuth a).2.2 = true →
    ∃ cs s, 6 ≤ a.length ∧ asciiEqualFold (a.take 6) basicScheme = true ∧
      base64Decode (a.drop 6) = some cs ∧ indexByte cs 58 = some s ∧
      parseBasicAuth a = (cs.take s, cs.drop (s + 1), true) := by
  unfold parseBasicAuth
  split_ifs with h1 h2
  · intro hh; simp at hh
  · intro hh; simp at hh
  · cases hbd : base64Decode (a.drop 6) with
    | none => intro hh; simp at hh
    | some cs =>
      cases hidx : indexByte cs 58 with
      | none => intro hh; simp [hidx] at hh
      | some s =>
        intro _
        have hfold : asciiEqualFold (a.take 6) basicScheme = true := by
          cases hf : asciiEqualFold (a.take 6) basicScheme with
          | false => exact absurd hf h2
          | true => rfl
        exact ⟨cs, s, by omega, hfold, rfl, hidx, by simp [hidx]⟩

/-- Claim C4: for every HTTP request that carries no Authorization
header (and hence no basic-auth credentials), getCredential returns a
Credential whose Username, Password and Authorization are all empty. -/
theorem credentialAbsent (r : Request) (h : ∀ p ∈ r.header, p.1 ≠ authKey) :
    getCredential r = { Username := [], Password := [], Authorization := [] } := by
  have hg : headerGet r.header authKey = [] := headerGet_absent r.header authKey h
  simp [getCredential, requestBasicAuth, hg]

/-- Witness for C4 at a request carrying only an unrelated header. -/
theorem credentialAbsent_witness :
    getCredential reqOther = { Username := [], Password := [], Authorization := [] } :=
  credentialAbsent reqOther (by decide)

/-- Claim C5: for every HTTP request whose Authorization header is
"Bearer " followed by a token, getCredential returns the header value
verbatim in Authorization and empty Username and Password. -/
theorem credentialBearer (r : Request) (token : List Nat)
    (h : headerGet r.header authKey = bearerScheme ++ token) :
    getCredential r = ⟨[], [], bearerScheme ++ token⟩ := by
  have hne : bearerScheme ++ token ≠ [] := by simp [bearerScheme]
  have hlen : ¬ (bearerScheme ++ token).length < 6 := by
    simp only [bearerScheme, List.length_append, List.length_cons, List.length_nil]
    omega
  have htake : (bearerScheme ++ token).take 6 = [66, 101, 97, 114, 101, 114] := rfl
  have hfold : asciiEqualFold ((bearerScheme ++ token).take 6) basicScheme = false := by
    rw [htake]; decide
  simp [getCredential, requestBasicAuth, h, hne, parseBasicAuth, hlen, hfold]

/-- Witness for C5 at the request whose header is "Bearer V". -/
theorem credentialBearer_witness :
    getCredential reqBearer = ⟨[], [], bearerScheme ++ [86]⟩ :=
  credentialBearer reqBearer [86] (by decide)

/-- Claim C6: getCredential is a pure function of the request's header
map — two requests with identical headers yield identical Credential
values (no other request state influences the result; the embedding is
a total function with no effects and it does not modify the request). -/
theorem credentialHeaderDetermined (r1 r2 : Request) (h : r1.header = r2.header) :
    getCredential r1 = getCredential r2 := by
  simp [getCredential, requestBasicAuth, h]

/-- Witness for C6 at two requests that differ in method and URL but
carry the same header map. -/
theorem credentialHeaderDetermined_witness :
    getCredential reqBasic = getCredential reqBasic2 :=
  credentialHeaderDetermined reqBasic reqBasic2 (by decide)

/-- Claim C9: whenever the Authorization header does not parse as a
well-formed Basic credential (the ok flag of parseBasicAuth is false),
getCredential returns empty Username and Password while Authorization
still holds the raw header value verbatim. -/
theorem credentialMalformed (r : Request)
    (h : (parseBasicAuth (headerGet r.header authKey)).2.2 = false) :
    (getCredential r).Username = [] ∧ (getCredential r).Password = [] ∧
    (getCredential r).Authorization = headerGet r.header authKey := by
  have hfail := parseBasicAuth_not_ok _ h
  by_cases he : headerGet r.header authKey = []
  · simp [getCredential, requestBasicAuth, he]
  · simp [getCredential, requestBasicAuth, he, hfail]

/-- Witness for C9 at the request whose header is "Bearer V", which is
present but not Basic. -/
theorem credentialMalformed_witness :
    (getCredential reqBearer).Username = [] ∧ (getCredential reqBearer).Password = [] ∧
    (getCredential reqBearer).Authorization = headerGet reqBearer.header authKey :=
  credentialMalformed reqBearer (by decide)

/-- Claim C10: whenever getCredential returns a non-empty Username or
Password, the Authorization value splits into a 6-byte scheme part that
equals "Basic " up to ASCII case and a payload whose base64 decoding is
exactly Username, a colon byte, then Password, and the Username holds
no colon byte. -/
theorem credentialInvariant (r : Request)
    (h : (getCredential r).Username ≠ [] ∨ (getCredential r).Password ≠ []) :
    ∃ pfx payload,
      (getCredential r).Authorization = pfx ++ payload ∧
      asciiEqualFold pfx basicScheme = true ∧
      base64Decode payload =
        some ((getCredential r).Username ++ 58 :: (getCredential r).Password) ∧
      58 ∉ (getCredential r).Username := by
  by_cases he : headerGet r.header authKey = []
  · exfalso
    rcases h with h | h <;> simp [getCredential, requestBasicAuth, he] at h
  · cases hok : (parseBasicAuth (headerGet r.header authKey)).2.2 with
    | false =>
      exfalso
      have hfail := parseBasicAuth_not_ok _ hok
      rcases h with h | h <;> simp [getCredential, requestBasicAuth, he, hfail] at h
    | true =>
      obtain ⟨cs, s, hlen, hfold, hdec, hidx, heq⟩ := parseBasicAuth_ok _ hok
      obtain ⟨hdecomp, hnotin⟩ := indexByte_decomp cs 58 s hidx
      have husr : (getCredential r).Username = cs.take s := by
        simp [getCredential, requestBasicAuth, he, heq]
      have hpwd : (getCredential r).Password = cs.drop (s + 1) := by
        simp [getCredential, requestBasicAuth, he, heq]
      refine ⟨(headerGet r.header authKey).take 6,
        (headerGet r.header authKey).drop 6, ?_, hfold, ?_, ?_⟩
      · show headerGet r.header authKey = _
        exact (List.take_append_drop 6 (headerGet r.header authKey)).symm
      · rw [hdec, husr, hpwd, hdecomp]
      · rw [husr]; exact hnotin

/-- Witness for C10 at the request whose header is "Basic QTpC": the
payload decodes to an "A", a colon, then a "B". -/
theorem credentialInvariant_witness :
    ∃ pfx payload,
      (getCredential reqBasic).Authorization = pfx ++ payload ∧
      asciiEqualFold pfx basicScheme = true ∧
      base64Decode payload =
        some ((getCredential reqBasic).Username ++ 58 :: (getCredential reqBasic).Password) ∧
      58 ∉ (getCredential reqBasic).Username :=
  credentialInvariant reqBasic (Or.inl (by decide))

/-- Counterexample to claim C1 as stated: with the one-byte username
consisting of a colon (byte 58) and an empty password, setting basic
auth and extracting again does not return the username — the split at
the first colon of the decoded payload yields an empty username. -/
theorem basicRoundTrip_cex :
    ¬ ((getCredential (setBasicAuth reqEmpty [58] [])).Username = [58]) := by decide

/-- Claim C1 (amended): for every request and every user and pass byte
string such that the user holds no colon byte, setting basic auth and
then extracting recovers Username = user and Password = pass, and the
Authorization value starts with the "Basic " scheme. The claim as
frozen quantifies over all user strings; it fails when user has a
colon, since the decoded payload is split at its first colon. -/
theorem basicRoundTrip (r : Request) (user pass : List Nat)
    (hu : ∀ b ∈ user, b < 256) (hp : ∀ b ∈ pass, b < 256) (hc : 58 ∉ user) :
    (getCredential (setBasicAuth r user pass)).Username = user ∧
    (getCredential (setBasicAuth r user pass)).Password = pass ∧
    ∃ t, (getCredential (setBasicAuth r user pass)).Authorization = basicScheme ++ t := by
  have hg : headerGet (setBasicAuth r user pass).header authKey =
      basicScheme ++ base64Encode (user ++ 58 :: pass) :=
    headerGet_headerSet r.header authKey _
  have hne : basicScheme ++ base64Encode (user ++ 58 :: pass) ≠ [] := by
    simp [basicScheme]
  have hvalid : ∀ b ∈ user ++ 58 :: pass, b < 256 := by
    intro b hb
    rcases List.mem_append.mp hb with hb | hb
    · exact hu b hb
    · rcases List.mem_cons.mp hb with hb | hb
      · omega
      · exact hp b hb
  have hdec0 : base64Decode (base64Encode (user ++ 58 :: pass)) =
      some (user ++ 58 :: pass) := base64Decode_encode _ hvalid
  have hlen : ¬ (basicScheme ++ base64Encode (user ++ 58 :: pass)).length < 6 := by
    simp only [basicScheme, List.length_append, List.length_cons, List.length_nil]
    omega
  have htake : (basicScheme ++ base64Encode (user ++ 58 :: pass)).take 6 = basicScheme := rfl
  have hdrop : (basicScheme ++ base64Encode (user ++ 58 :: pass)).drop 6 =
      base64Encode (user ++ 58 :: pass) := rfl
  have hfold : asciiEqualFold
      ((basicScheme ++ base64Encode (user ++ 58 :: pass)).take 6) basicScheme = true := by
    rw [htake]; decide
  have hidx : indexByte (user ++ 58 :: pass) 58 = some user.length :=
    indexByte_append user 58 pass hc
  have htk : (user ++ 58 :: pass).take user.length = user := List.take_left user (58 :: pass)
  have hdp : (user ++ 58 :: pass).drop (user.length + 1) = pass := by
    have hsp : user ++ 58 :: pass = (user ++ [58]) ++ pass := by simp
    have hl : (user ++ [58]).length = user.length + 1 := by simp
    rw [hsp, ← hl]
    exact List.drop_left (user ++ [58]) pass
  have hparse : parseBasicAuth (basicScheme ++ base64Encode (user ++ 58 :: pass)) =
      (user, pass, true) := by
    unfold parseBasicAuth
    rw [if_neg hlen, hfold, hdrop, hdec0]
    simp [hidx, htk, hdp]
  refine ⟨?_, ?_, ⟨base64Encode (user ++ 58 :: pass), ?_⟩⟩ <;>
    simp [getCredential, requestBasicAuth, hg, hne, hparse]

/-- Witness for the amended C1 at user "A" and password "B". -/
theorem basicRoundTrip_witness :
    (getCredential (setBasicAuth reqEmpty [65] [66])).Username = [65] ∧
    (getCredential (setBasicAuth reqEmpty [65] [66])).Password = [66] ∧
    ∃ t, (getCredential (setBasicAuth reqEmpty [65] [66])).Authorization = basicScheme ++ t :=
  basicRoundTrip reqEmpty [65] [66] (by decide) (by decide) (by decide)

theorem dropExact_eq_some : ∀ (p l r : List Nat), dropExact p l = some r ↔ l = p ++ r := by
  intro p
  induction p with
  | nil =>
    intro l r
    simp [dropExact]
  | cons q ps ih =>
    intro l r
    cases l with
    | nil => simp [dropExact]
    | cons c cs =>
      by_cases hc : c = q
      · simp [dropExact, hc, ih cs r]
      · simp [dropExact, hc]

theorem readQuoted_eq_some : ∀ (l p : List Nat),
    readQuoted l = some p ↔ (l = p ++ [39] ∧ 39 ∉ p) := by
  intro l
  induction l with
  | nil =>
    intro p
    simp [readQuoted]
  | cons c rest ih =>
    intro p
    by_cases hc : c = 39
    · subst hc
      by_cases hr : rest = []
      · subst hr
        simp [readQuoted]
        rintro rfl
        simp
      · simp [readQuoted, hr]
        intro h1
        cases p with
        | nil =>
          exfalso
          simp at h1
          exact hr h1
        | cons x xs =>
          have hx : x = 39 := by
            have := congrArg (List.head? ·) h1
            simpa using this.symm
          simp [hx]
    · simp only [readQuoted, if_neg hc, Option.map_eq_some']
      constructor
      · rintro ⟨q, hq, rfl⟩
        obtain ⟨h1, h2⟩ := (ih q).mp hq
        refine ⟨by simp [h1], ?_⟩
        intro hmem
        rcases List.mem_cons.mp hmem with h | h
        · exact hc h.symm
        · exact h2 h
      · rintro ⟨h1, h2⟩
        cases p with
        | nil =>
          exfalso
          simp at h1
          exact hc h1.1
        | cons x xs =>
          simp at h1
          refine ⟨xs, (ih xs).mpr ⟨h1.2, fun hm => h2 (by simp [hm])⟩, ?_⟩
          rw [h1.1]

theorem quoted_assemble (name path : List Nat) :
    (name ++ [32, 39]) ++ (path ++ [39]) = name ++ quotedArg path := by
  simp [quotedArg]

theorem rcv_ne_upl (path r : List Nat) :
    receivePackName ++ quotedArg path ≠ (uploadPackName ++ [32, 39]) ++ r := by
  intro h
  simp [receivePackName, uploadPackName, quotedArg] at h


theorem parseCommand_char (cmd : List Nat) (op : GitOp) (path : List Nat) :
    parseCommand cmd = some (op, path) ↔
      (39 ∉ path ∧
        ((op = GitOp.uploadPack ∧ cmd = uploadPackName ++ quotedArg path) ∨
         (op = GitOp.receivePack ∧ cmd = receivePackName ++ quotedArg path))) := by
  unfold parseCommand
  cases hu : dropExact (uploadPackName ++ [32, 39]) cmd with
  | some rest =>
    have hcmd : cmd = (uploadPackName ++ [32, 39]) ++ rest := (dropExact_eq_some _ _ _).mp hu
    cases hq : readQuoted rest with
    | some p =>
      obtain ⟨hrest, hnq⟩ := (readQuoted_eq_some _ _).mp hq
      simp only [hq]
      constructor
      · intro h
        simp only [Option.some.injEq, Prod.mk.injEq] at h
        obtain ⟨hop, hpath⟩ := h
        subst hop
        subst hpath
        exact ⟨hnq, Or.inl ⟨rfl, by rw [hcmd, hrest, quoted_assemble]⟩⟩
      · rintro ⟨hnp, (⟨hop, hform⟩ | ⟨hop, hform⟩)⟩
        · subst hop
          have hre : rest = path ++ [39] := by
            have h2 : (uploadPackName ++ [32, 39]) ++ rest =
                (uploadPackName ++ [32, 39]) ++ (path ++ [39]) := by
              rw [← hcmd, hform, quoted_assemble]
            exact List.append_cancel_left h2
          have hp : p = path := by
            have hx := (readQuoted_eq_some rest path).mpr ⟨hre, hnp⟩
            rw [hq] at hx
            simpa using hx
          rw [hp]
        · exfalso
          exact rcv_ne_upl path rest (by rw [← hform, hcmd])
    | none =>
      simp only [hq]
      constructor
      · intro h; simp at h
      · rintro ⟨hnp, (⟨hop, hform⟩ | ⟨hop, hform⟩)⟩
        · exfalso
          have hre : rest = path ++ [39] := by
            have h2 : (uploadPackName ++ [32, 39]) ++ rest =
                (uploadPackName ++ [32, 39]) ++ (path ++ [39]) := by
              rw [← hcmd, hform, quoted_assemble]
            exact List.append_cancel_left h2
          have hx := (readQuoted_eq_some rest path).mpr ⟨hre, hnp⟩
          rw [hq] at hx
          simp at hx
        · exfalso
          exact rcv_ne_upl path rest (by rw [← hform, hcmd])
  | none =>
    cases hr : dropExact (receivePackName ++ [32, 39]) cmd with
    | some rest =>
      have hcmd : cmd = (receivePackName ++ [32, 39]) ++ rest := (dropExact_eq_some _ _ _).mp hr
      cases hq : readQuoted rest with
      | some p =>
        obtain ⟨hrest, hnq⟩ := (readQuoted_eq_some _ _).mp hq
        simp only [hq]
        constructor
        · intro h
          simp only [Option.some.injEq, Prod.mk.injEq] at h
          obtain ⟨hop, hpath⟩ := h
          subst hop
          subst hpath
          exact ⟨hnq, Or.inr ⟨rfl, by rw [hcmd, hrest, quoted_assemble]⟩⟩
        · rintro ⟨hnp, (⟨hop, hform⟩ | ⟨hop, hform⟩)⟩
          · exfalso
            have hx : dropExact (uploadPackName ++ [32, 39]) cmd = some (path ++ [39]) :=
              (dropExact_eq_some _ _ _).mpr (by rw [hform, quoted_assemble])
            rw [hu] at hx
            simp at hx
          · subst hop
            have hre : rest = path ++ [39] := by
              have h2 : (receivePackName ++ [32, 39]) ++ rest =
                  (receivePackName ++ [32, 39]) ++ (path ++ [39]) := by
                rw [← hcmd, hform, quoted_assemble]
              exact List.append_cancel_left h2
            have hp : p = path := by
              have hx := (readQuoted_eq_some rest path).mpr ⟨hre, hnp⟩
              rw [hq] at hx
              simpa using hx
            rw [hp]
      | none =>
        simp only [hq]
        constructor
        · intro h; simp at h
        · rintro ⟨hnp, (⟨hop, hform⟩ | ⟨hop, hform⟩)⟩
          · exfalso
            have hx : dropExact (uploadPackName ++ [32, 39]) cmd = some (path ++ [39]) :=
              (dropExact_eq_some _ _ _).mpr (by rw [hform, quoted_assemble])
            rw [hu] at hx
            simp at hx
          · exfalso
            have hre : rest = path ++ [39] := by
              have h2 : (receivePackName ++ [32, 39]) ++ rest =
                  (receivePackName ++ [32, 39]) ++ (path ++ [39]) := by
                rw [← hcmd, hform, quoted_assemble]
              exact List.append_cancel_left h2
            have hx := (readQuoted_eq_some rest path).mpr ⟨hre, hnp⟩
            rw [hq] at hx
            simp at hx
    | none =>
      constructor
      · intro h; simp at h
      · rintro ⟨hnp, (⟨hop, hform⟩ | ⟨hop, hform⟩)⟩
        · have hx : dropExact (uploadPackName ++ [32, 39]) cmd = some (path ++ [39]) :=
            (dropExact_eq_some _ _ _).mpr (by rw [hform, quoted_assemble])
          rw [hu] at hx
          simp at hx
        · have hx : dropExact (receivePackName ++ [32, 39]) cmd = some (path ++ [39]) :=
            (dropExact_eq_some _ _ _).mpr (by rw [hform, quoted_assemble])
          rw [hr] at hx
          simp at hx

/-- Claim C3 (spec-modelled, ssh.go not in the visible sources): a
channel-exec command parses exactly when it is git-upload-pack or
git-receive-pack followed by one single-quoted path, and any other
command string makes the handler return an explicit error outcome on
the channel — the rejected outcome, under which no subprocess is
spawned and nothing falls through to a shell. -/
theorem commandGrammar (dir : List (List Nat)) (cmd : List Nat) :
    ((∃ op path, parseCommand cmd = some (op, path)) ↔
      (∃ path, 39 ∉ path ∧
        (cmd = uploadPackName ++ quotedArg path ∨
         cmd = receivePackName ++ quotedArg path))) ∧
    (parseCommand cmd = none →
      handleExec dir cmd = ChannelOutcome.rejected errBadCommand) := by
  constructor
  · constructor
    · rintro ⟨op, path, h⟩
      obtain ⟨hnp, hb⟩ := (parseCommand_char cmd op path).mp h
      rcases hb with ⟨_, hform⟩ | ⟨_, hform⟩
      · exact ⟨path, hnp, Or.inl hform⟩
      · exact ⟨path, hnp, Or.inr hform⟩
    · rintro ⟨path, hnp, (hform | hform)⟩
      · exact ⟨GitOp.uploadPack, path,
          (parseCommand_char cmd _ path).mpr ⟨hnp, Or.inl ⟨rfl, hform⟩⟩⟩
      · exact ⟨GitOp.receivePack, path,
          (parseCommand_char cmd _ path).mpr ⟨hnp, Or.inr ⟨rfl, hform⟩⟩⟩
  · intro h
    simp [handleExec, h]

/-- Witness for C3 at the unrecognized one-byte command "x". -/
theorem commandGrammar_witness :
    handleExec dir0 evilCmd = ChannelOutcome.rejected errBadCommand :=
  (commandGrammar dir0 evilCmd).2 (by decide)

theorem resolveRepoPath_some (dir : List (List Nat)) (p : List Nat) (r : List (List Nat)) :
    resolveRepoPath dir p = some r → ∃ segs, r = dir ++ segs := by
  unfold resolveRepoPath
  split_ifs with h
  · intro h2; simp at h2
  · cases hn : normalizeSegs [] (splitPath p) with
    | none => simp [hn]
    | some segs =>
      simp only [hn, Option.some.injEq]
      intro h2
      exact ⟨segs, h2.symm⟩

/-- Claim C2 (spec-modelled, ssh.go not in the visible sources): the
repository path of a channel-exec request is resolved relative to
Config.Dir; an absolute path is rejected, a path whose normalization
escapes the root resolves to none and the handler then rejects before
reaching the spawning step, and every spawned outcome operates on a
location that extends Dir. -/
theorem pathContainment (dir : List (List Nat)) (cmd : List Nat) :
    (∀ p, resolveRepoPath dir (47 :: p) = none) ∧
    (∀ op path, parseCommand cmd = some (op, path) →
      resolveRepoPath dir path = none →
      handleExec dir cmd = ChannelOutcome.rejected errBadPath) ∧
    (∀ op resolved, handleExec dir cmd = ChannelOutcome.spawned op resolved →
      ∃ segs, resolved = dir ++ segs) := by
  refine ⟨?_, ?_, ?_⟩
  · intro p
    simp [resolveRepoPath]
  · intro op path hp hres
    simp [handleExec, hp, hres]
  · intro op resolved h
    unfold handleExec at h
    cases hp : parseCommand cmd with
    | none => rw [hp] at h; simp at h
    | some pr =>
      obtain ⟨op2, path⟩ := pr
      rw [hp] at h
      cases hres : resolveRepoPath dir path with
      | none => simp [hres] at h
      | some r =>
        simp [hres] at h
        obtain ⟨segs, hsegs⟩ := resolveRepoPath_some dir path r hres
        exact ⟨segs, by rw [← h.2, hsegs]⟩

/-- Witness for C2 at the command whose quoted path is "..", which
normalizes out of the root and is rejected. -/
theorem pathContainment_witness :
    handleExec dir0 escCmd = ChannelOutcome.rejected errBadPath :=
  (pathContainment dir0 escCmd).2.1 GitOp.uploadPack [46, 46] (by decide) (by decide)

/-- Claim C7 (spec-modelled, the bridge and timeout code are not in the
visible sources): when the configured timeout is an effectively-zero
one nanosecond, every clone attempt — a bridge run whose subprocess
needs more than that one nanosecond of work — fails, and the
subprocess is terminated and reaped, so no orphaned subprocess remains
after the attempt. -/
theorem timeoutAborts (procNs : Nat) (h : 1 < procNs) :
    (runBridge (some 1) procNs).succeeded = false ∧
    (runBridge (some 1) procNs).subprocessReaped = true := by
  simp [runBridge, h]

/-- Witness for C7 at a subprocess needing two nanoseconds. -/
theorem timeoutAborts_witness :
    (runBridge (some 1) 2).succeeded = false ∧
    (runBridge (some 1) 2).subprocessReaped = true :=
  timeoutAborts 2 (by decide)

theorem stepServer_closed (s : ServerState) (e : SrvEvent)
    (h : s.listenerClosed = true) : (stepServer s e).listenerClosed = true := by
  cases e with
  | accept => simp [stepServer, h]
  | stop => rfl

theorem runServer_closed (evs : List SrvEvent) : ∀ s : ServerState,
    s.listenerClosed = true → (runServer s evs).listenerClosed = true := by
  induction evs with
  | nil => intro s h; exact h
  | cons e rest ih =>
    intro s h
    exact ih (stepServer s e) (stepServer_closed s e h)

/-- Claim C8 (spec-modelled, the listener lifecycle code is not in the
visible sources): Stop is idempotent, the lifecycle model is a total
function of the event interleaving so no sequence of Stop calls —
before any connection, repeated, or interleaved with in-flight
connections — can crash it, and after any Stop the listener stays
closed through all later events, which is the condition under which the
blocked accept loop of ListenAndServe returns. -/
theorem stopSafety (init : ServerState) (pre post : List SrvEvent) :
    stopServer (stopServer init) = stopServer init ∧
    (runServer init (pre ++ SrvEvent.stop :: post)).listenerClosed = true := by
  constructor
  · rfl
  · have hsplit : runServer init (pre ++ SrvEvent.stop :: post)
        = runServer (stepServer (runServer init pre) SrvEvent.stop) post := by
      simp [runServer, List.foldl_append]
    rw [hsplit]
    exact runServer_closed post _ rfl
